import Mathlib

/-!
BurgWar core — verification of the spec against the source

A shallow embedding of the parts of the BurgWar match engine that the
checked properties are about:

* the coroutine pool of `ScriptingContext` (`Update`, `CreateThread`,
  `MaxInactiveCoroutines`) from `src/src/CoreLib/Scripting/ScriptingContext.cpp`;
* synchronous and asynchronous script loading (`Load`, `LoadFile`,
  `LoadDirectory`, `ReadFile`) from the same file;
* `SharedEntityStore::InitializeEntity` from
  `src/src/CoreLib/Scripting/SharedEntityStore.cpp`;
* the `Auth` packet handler from `src/src/Shared/MatchClientSession.cpp`;
* the player roster and asset registry of `Match` (declared in
  `src/include/CoreLib/Match.hpp`; the implementation file is not part of
  the source tree, so those two operations are modelled from the spec).

Machine integers are embedded as `Nat` with explicit `% 2 ^ w` where the
source truncates; fallible operations return `Option` or `Except`; the
embedded Lua VM is represented by the trace of chunks executed against the
root state, plus abstract parameters for "does this chunk parse" and "does
running this chunk raise an error".
-/

namespace BurgWar

/-! ## Coroutine pool (ScriptingContext.cpp)

`m_availableThreads` / `m_runningThreads` hold `sol::thread` slots; a
thread is embedded as an identifier plus the status `lua_status` would
report for it.  The anonymous-namespace constant `MaxInactiveCoroutines`
is 20 (ScriptingContext.cpp:17). -/

/-- The `sol::thread_status` values switched on in `ScriptingContext::Update`
(ScriptingContext.cpp:174-193): `ok` (finished without error), `yielded`
(still suspended), and the five error statuses. -/
inductive ThreadStatus where
  | ok
  | yielded
  | dead
  | handler
  | gc
  | memory
  | runtime
deriving DecidableEq

/-- The error statuses grouped under the `// Errors` comment in `Update`. -/
def ThreadStatus.isError : ThreadStatus → Bool
  | .dead => true
  | .handler => true
  | .gc => true
  | .memory => true
  | .runtime => true
  | .ok => false
  | .yielded => false

/-- A `sol::thread` slot: its identity plus its current coroutine status. -/
structure LuaThread where
  id : Nat
  status : ThreadStatus
deriving DecidableEq

/-- The pool state of a `ScriptingContext`: the idle slots kept for reuse,
the running (possibly suspended) slots, a counter supplying identities for
freshly created threads, and the messages logged so far. -/
structure ThreadPool where
  m_availableThreads : List LuaThread
  m_runningThreads : List LuaThread
  nextId : Nat
  log : List String
deriving DecidableEq

/-- `MaxInactiveCoroutines` (ScriptingContext.cpp:17). -/
def MaxInactiveCoroutines : Nat := 20

/-- One iteration of the loop body of `ScriptingContext::Update`
(ScriptingContext.cpp:168-199): given the idle pool so far and the thread
under inspection, the new idle pool and the `removeThread` flag. -/
def updateStep (avail : List LuaThread) (t : LuaThread) : List LuaThread × Bool :=
  match t.status with
  | .ok =>
      (if avail.length < MaxInactiveCoroutines then avail ++ [t] else avail, true)
  | .yielded => (avail, false)
  | _ => (avail, true)

/-- The loop of `ScriptingContext::Update`: walk the running threads in
order, accumulating the idle pool and the threads kept running. -/
def updateGo (avail kept : List LuaThread) : List LuaThread → List LuaThread × List LuaThread
  | [] => (avail, kept)
  | t :: rest =>
      let s := updateStep avail t
      updateGo s.1 (if s.2 then kept else kept ++ [t]) rest

namespace ScriptingContext

/-- `ScriptingContext::Update` (ScriptingContext.cpp:166-200). -/
def Update (p : ThreadPool) : ThreadPool :=
  let r := updateGo p.m_availableThreads [] p.m_runningThreads
  { p with m_availableThreads := r.1, m_runningThreads := r.2 }

/-- `ScriptingContext::CreateThread` (ScriptingContext.cpp:202-219): pop the
back of the idle pool if non-empty, otherwise allocate a fresh thread
(logging a debug message); either way the thread joins the running set. -/
def CreateThread (p : ThreadPool) : ThreadPool × LuaThread :=
  match p.m_availableThreads.getLast? with
  | some t =>
      ({ p with
          m_availableThreads := p.m_availableThreads.dropLast,
          m_runningThreads := p.m_runningThreads ++ [t] }, t)
  | none =>
      let t : LuaThread := ⟨p.nextId, .ok⟩
      ({ p with
          m_runningThreads := p.m_runningThreads ++ [t],
          nextId := p.nextId + 1,
          log := p.log ++ ["Allocating new coroutine"] }, t)

end ScriptingContext

/-- The events a pool goes through: `CreateThread` calls, a running
thread's coroutine changing status (finishing, yielding or erroring when
resumed by its owner), and `Update` calls. -/
inductive PoolOp where
  | create
  | setStatus (id : Nat) (st : ThreadStatus)
  | update

/-- Apply one pool event. -/
def applyPoolOp (p : ThreadPool) : PoolOp → ThreadPool
  | .create => (ScriptingContext.CreateThread p).1
  | .setStatus i st =>
      { p with
          m_runningThreads :=
            p.m_runningThreads.map fun t =>
              if t.id = i then { t with status := st } else t }
  | .update => ScriptingContext.Update p

/-- A freshly constructed `ScriptingContext`: both thread lists empty. -/
def initialPool : ThreadPool := ⟨[], [], 0, []⟩

/-- The pool after a sequence of events starting from construction. -/
def runPoolOps (ops : List PoolOp) : ThreadPool := ops.foldl applyPoolOp initialPool

theorem updateGo_spec (rest : List LuaThread) : ∀ avail kept,
    updateGo avail kept rest =
      (avail ++ (rest.filter fun t => t.status == ThreadStatus.ok).take
          (MaxInactiveCoroutines - avail.length),
       kept ++ rest.filter fun t => t.status == ThreadStatus.yielded) := by
  induction rest with
  | nil => intro avail kept; simp [updateGo]
  | cons t rest ih =>
      intro avail kept
      cases hst : t.status with
      | ok =>
          by_cases hlen : avail.length < MaxInactiveCoroutines
          · have hcnt : MaxInactiveCoroutines - avail.length =
                (MaxInactiveCoroutines - (avail.length + 1)) + 1 := by omega
            simp only [updateGo, updateStep, hst, if_pos hlen, ih,
              List.filter_cons, if_pos, List.take_succ_cons, hcnt]
            simp [List.append_assoc, List.length_append]
          · have hcnt : MaxInactiveCoroutines - avail.length = 0 := by omega
            simp only [updateGo, updateStep, hst, if_neg hlen, ih,
              List.filter_cons]
            simp [hcnt]
      | yielded =>
          simp only [updateGo, updateStep, hst, ih, List.filter_cons]
          simp [List.append_assoc]
      | dead => simp [updateGo, updateStep, hst, ih, List.filter_cons]
      | handler => simp [updateGo, updateStep, hst, ih, List.filter_cons]
      | gc => simp [updateGo, updateStep, hst, ih, List.filter_cons]
      | memory => simp [updateGo, updateStep, hst, ih, List.filter_cons]
      | runtime => simp [updateGo, updateStep, hst, ih, List.filter_cons]

theorem Update_spec (p : ThreadPool) :
    (ScriptingContext.Update p).m_availableThreads =
        p.m_availableThreads ++
          (p.m_runningThreads.filter fun t => t.status == ThreadStatus.ok).take
            (MaxInactiveCoroutines - p.m_availableThreads.length) ∧
    (ScriptingContext.Update p).m_runningThreads =
        p.m_runningThreads.filter (fun t => t.status == ThreadStatus.yielded) ∧
    (ScriptingContext.Update p).log = p.log ∧
    (ScriptingContext.Update p).nextId = p.nextId := by
  simp [ScriptingContext.Update, updateGo_spec]

theorem update_avail_le (p : ThreadPool)
    (h : p.m_availableThreads.length ≤ MaxInactiveCoroutines) :
    (ScriptingContext.Update p).m_availableThreads.length ≤ MaxInactiveCoroutines := by
  have hs := (Update_spec p).1
  have : ((p.m_runningThreads.filter fun t => t.status == ThreadStatus.ok).take
      (MaxInactiveCoroutines - p.m_availableThreads.length)).length ≤
      MaxInactiveCoroutines - p.m_availableThreads.length := by
    simp
  rw [hs, List.length_append]
  omega

theorem applyPoolOp_avail_le (p : ThreadPool) (op : PoolOp)
    (h : p.m_availableThreads.length ≤ MaxInactiveCoroutines) :
    (applyPoolOp p op).m_availableThreads.length ≤ MaxInactiveCoroutines := by
  cases op with
  | create =>
      simp only [applyPoolOp, ScriptingContext.CreateThread]
      cases hl : p.m_availableThreads.getLast? with
      | some t =>
          simp only [List.length_dropLast]
          omega
      | none => simpa using h
  | setStatus i st => simpa [applyPoolOp] using h
  | update => exact update_avail_le p h

theorem foldl_avail_le (ops : List PoolOp) : ∀ p : ThreadPool,
    p.m_availableThreads.length ≤ MaxInactiveCoroutines →
    (ops.foldl applyPoolOp p).m_availableThreads.length ≤ MaxInactiveCoroutines := by
  induction ops with
  | nil => intro p h; simpa using h
  | cons op ops ih =>
      intro p h
      exact ih _ (applyPoolOp_avail_le p op h)

/-- C1: For every sequence of thread creations, completions and
`ScriptingContext::Update()` calls (starting from a freshly constructed
context), the idle pool `m_availableThreads` holds at most
`MaxInactiveCoroutines = 20` threads — in particular after any `Update()`
call — and when the pool is exactly at the cap, a further `Update()`
leaves the idle pool unchanged: threads that finished are discarded
rather than retained. -/
theorem update_idle_pool_capped (ops : List PoolOp) :
    (runPoolOps ops).m_availableThreads.length ≤ MaxInactiveCoroutines ∧
    ((runPoolOps ops).m_availableThreads.length = MaxInactiveCoroutines →
      (ScriptingContext.Update (runPoolOps ops)).m_availableThreads =
        (runPoolOps ops).m_availableThreads) := by
  constructor
  · exact foldl_avail_le ops initialPool (by simp [initialPool, MaxInactiveCoroutines])
  · intro hcap
    have hs := (Update_spec (runPoolOps ops)).1
    rw [hs, hcap]
    simp

/-- A pool whose single running thread terminated with a runtime error. -/
def erroredPool : ThreadPool := ⟨[], [⟨0, ThreadStatus.runtime⟩], 1, []⟩

/-- C2 (counterexample): `Update` on a pool whose one running thread
terminated with a runtime error removes and discards the thread but logs
nothing — `(Update erroredPool).log = erroredPool.log = []` — so the
claim's "the error is logged" is false at this input: the error cases of
the `switch` in `ScriptingContext::Update` (ScriptingContext.cpp:187-192)
contain no logging call. -/
theorem update_error_not_logged :
    (ScriptingContext.Update erroredPool).m_runningThreads = [] ∧
    (ScriptingContext.Update erroredPool).m_availableThreads = [] ∧
    (ScriptingContext.Update erroredPool).log = erroredPool.log := by
  decide

/-- C2 (amended): `Update` classifies every running thread by status: the
running set afterwards is exactly the yielded threads; threads that
finished without error are appended to the idle pool in order until the
cap is reached and the rest are discarded (so everything in the idle pool
afterwards was already there or finished with status `ok`); threads that
terminated with an error are removed and discarded silently — `Update`
emits no log entry and, being a total function on pool states, propagates
no error to its caller. -/
theorem update_classifies_threads (p : ThreadPool) :
    (ScriptingContext.Update p).m_runningThreads =
        p.m_runningThreads.filter (fun t => t.status == ThreadStatus.yielded) ∧
    (ScriptingContext.Update p).m_availableThreads =
        p.m_availableThreads ++
          (p.m_runningThreads.filter fun t => t.status == ThreadStatus.ok).take
            (MaxInactiveCoroutines - p.m_availableThreads.length) ∧
    (∀ t, t ∈ (ScriptingContext.Update p).m_availableThreads →
      t ∈ p.m_availableThreads ∨ t.status = ThreadStatus.ok) ∧
    (∀ t, t ∈ p.m_runningThreads → t.status.isError = true →
      t ∉ (ScriptingContext.Update p).m_runningThreads) ∧
    (ScriptingContext.Update p).log = p.log := by
  obtain ⟨ha, hr, hl, _⟩ := Update_spec p
  refine ⟨hr, ha, ?_, ?_, hl⟩
  · intro t ht
    rw [ha] at ht
    rcases List.mem_append.mp ht with h | h
    · exact Or.inl h
    · right
      have := List.mem_filter.mp (List.mem_of_mem_take h)
      exact of_decide_eq_true this.2
  · intro t _ herr hmem
    rw [hr] at hmem
    have := List.mem_filter.mp hmem
    have hy : t.status = ThreadStatus.yielded := of_decide_eq_true this.2
    rw [hy] at herr
    simp [ThreadStatus.isError] at herr

/-- C9: `CreateThread` takes the thread from the idle pool whenever it is
non-empty (popping the back, as `PopThread` does), and allocates a fresh
thread only when the idle pool is empty; in both cases the returned
thread is appended to the running set, and the total number of threads
(idle + running) grows only on the empty-pool path. -/
theorem createThread_reuses_idle (p : ThreadPool) :
    (p.m_availableThreads ≠ [] →
      ∃ t, p.m_availableThreads.getLast? = some t ∧
        t ∈ p.m_availableThreads ∧
        ScriptingContext.CreateThread p =
          ({ p with
              m_availableThreads := p.m_availableThreads.dropLast,
              m_runningThreads := p.m_runningThreads ++ [t] }, t) ∧
        (ScriptingContext.CreateThread p).1.m_availableThreads.length +
            (ScriptingContext.CreateThread p).1.m_runningThreads.length =
          p.m_availableThreads.length + p.m_runningThreads.length) ∧
    (p.m_availableThreads = [] →
      ScriptingContext.CreateThread p =
        ({ p with
            m_runningThreads := p.m_runningThreads ++ [⟨p.nextId, ThreadStatus.ok⟩],
            nextId := p.nextId + 1,
            log := p.log ++ ["Allocating new coroutine"] }, ⟨p.nextId, ThreadStatus.ok⟩) ∧
      (ScriptingContext.CreateThread p).1.m_availableThreads.length +
          (ScriptingContext.CreateThread p).1.m_runningThreads.length =
        p.m_availableThreads.length + p.m_runningThreads.length + 1) := by
  constructor
  · intro hne
    have ht := List.getLast?_eq_getLast_of_ne_nil hne
    refine ⟨p.m_availableThreads.getLast hne, ht, List.getLast_mem hne, ?_, ?_⟩
    · simp [ScriptingContext.CreateThread, ht]
    · simp only [ScriptingContext.CreateThread, ht]
      have hlen : p.m_availableThreads.length ≠ 0 := by
        simpa using fun h => hne (List.length_eq_zero.mp h)
      simp only [List.length_dropLast, List.length_append, List.length_cons,
        List.length_nil]
      omega
  · intro hemp
    have hl : p.m_availableThreads.getLast? = none := by simp [hemp]
    constructor
    · simp [ScriptingContext.CreateThread, hl]
    · simp [ScriptingContext.CreateThread, hl, hemp]

/-! ## Script loading (ScriptingContext.cpp)

The virtual script directory (`Nz::VirtualDirectory`) is a tree whose
leaves are the three file entry kinds of the `std::visit` dispatch
(`DataPointerEntry`, `FileContentEntry`, `PhysicalFileEntry`) and whose
nodes are directories.  A physical file carries the outcome of reading it
(`none` when opening or reading fails, which `ReadFile` turns into an
empty string after logging).  The Lua side is embedded by the trace of
chunks executed against the root state (`LoadSt.vm`), with two abstract
parameters: whether a chunk parses (`state.load` succeeding) and whether
executing it raises an error (`state.do_string` returning an invalid
result). -/

/-- Abstract behaviour of the embedded Lua VM on a given chunk. -/
structure LuaSem where
  parses : String → Bool
  runFail : String → Option String

/-- A file entry of the virtual directory. -/
inductive FileEntry where
  | dataPointer (content : String)
  | fileContent (content : String)
  | physicalFile (readResult : Option String)
deriving DecidableEq

/-- A physical directory subtree (`PhysicalDirectoryEntry` points into the
filesystem): its entries are physical files — each carrying the outcome of
reading it — and physical subdirectories. -/
inductive PhysEntry where
  | file (readResult : Option String)
  | directory (entries : List (String × PhysEntry))

/-- An entry of the virtual directory: a file, a directory of named
entries, or a mounted physical directory (`PhysicalDirectoryEntry`). -/
inductive VEntry where
  | file (f : FileEntry)
  | directory (entries : List (String × VEntry))
  | physicalDirectory (entries : List (String × PhysEntry))

/-- What `GetEntry` yields when a path resolves inside a mounted physical
directory: a physical file entry or a physical directory entry. -/
def PhysEntry.toVEntry : PhysEntry → VEntry
  | .file r => .file (.physicalFile r)
  | .directory es => .physicalDirectory es

/-- The state threaded through loading: the chunks executed against the
root Lua state in order, the log, and a counter supplying identities for
`sol::thread::create`. -/
structure LoadSt where
  vm : List String
  log : List String
  nextThreadId : Nat
deriving DecidableEq

/-- A value produced by a synchronous load: the default-constructed
`sol::object` (nil) or the result of executing a chunk. -/
inductive LuaValue where
  | nil
  | chunkResult (path : String) (content : String)
deriving DecidableEq

/-- The `FileLoadCoroutine` returned by asynchronous loads
(ScriptingContext.cpp:295-299): a freshly created thread, the compiled
chunk and the path. -/
structure FileLoadCoroutine where
  threadId : Nat
  chunk : String
  path : String
deriving DecidableEq

/-- Renders a path the way `generic_u8string` does in log messages. -/
def pathStr (p : List String) : String := String.intercalate "/" p

/-- Name lookup among a directory's entries. -/
def lookupEntry {α : Type} : List (String × α) → String → Option α
  | [], _ => none
  | (n, e) :: rest, name => if n = name then some e else lookupEntry rest name

/-- `VirtualDirectory::GetEntry`: resolve a path against the tree. -/
def resolve : VEntry → List String → Option VEntry
  | e, [] => some e
  | .directory es, c :: rest =>
      match lookupEntry es c with
      | some e => resolve e rest
      | none => none
  | .physicalDirectory es, c :: rest =>
      match lookupEntry es c with
      | some e => resolve e.toVEntry rest
      | none => none
  | .file _, _ :: _ => none

/-- `state.do_string(content, path)` (ScriptingContext.cpp:271-278): the
chunk is executed against the root state; an invalid result becomes the
structured failure `"failed to load <path>: <err>"`. -/
def doString (sem : LuaSem) (st : LoadSt) (path content : String) :
    LoadSt × Except String LuaValue :=
  ({ st with vm := st.vm ++ [content] },
    match sem.runFail content with
    | some e => .error ("failed to load " ++ path ++ ": " ++ e)
    | none => .ok (.chunkResult path content))

/-- `ScriptingContext::ReadFile` (ScriptingContext.cpp:342-359): an open or
read failure is logged and yields the empty string. -/
def ReadFile (st : LoadSt) (path : String) (readResult : Option String) :
    LoadSt × String :=
  match readResult with
  | none =>
      ({ st with log := st.log ++ ["Failed to load " ++ path ++ ": failed to open file"] }, "")
  | some c => (st, c)

/-- The synchronous `ScriptingContext::LoadFile` overloads
(ScriptingContext.cpp:221-248 and 259-279): data and in-memory content
entries execute their bytes; a physical file entry is read first and an
empty content short-circuits to the default-constructed success value. -/
def LoadFileSync (sem : LuaSem) (st : LoadSt) (path : String) :
    FileEntry → LoadSt × Except String LuaValue
  | .dataPointer c => doString sem st path c
  | .fileContent c => doString sem st path c
  | .physicalFile r =>
      let rr := ReadFile st path r
      if rr.2 = "" then (rr.1, .ok .nil)
      else doString sem rr.1 path rr.2

/-- `state.load` plus `sol::thread::create` in the asynchronous
`LoadFile` (ScriptingContext.cpp:281-300): compile without executing; on
success bind the chunk to a freshly created thread. -/
def compileChunk (sem : LuaSem) (st : LoadSt) (path content : String) :
    LoadSt × Option FileLoadCoroutine :=
  if sem.parses content then
    ({ st with nextThreadId := st.nextThreadId + 1 },
      some ⟨st.nextThreadId, content, path⟩)
  else
    ({ st with log := st.log ++ ["failed to load " ++ path] }, none)

/-- The asynchronous `ScriptingContext::LoadFile` overloads
(ScriptingContext.cpp:226-229, 236-239, 250-257). -/
def LoadFileAsync (sem : LuaSem) (st : LoadSt) (path : String) :
    FileEntry → LoadSt × Option FileLoadCoroutine
  | .dataPointer c => compileChunk sem st path c
  | .fileContent c => compileChunk sem st path c
  | .physicalFile r =>
      let rr := ReadFile st path r
      if rr.2 = "" then (rr.1, none)
      else compileChunk sem rr.1 path rr.2

namespace ScriptingContext

/-- `ScriptingContext::Load(file, logError)` (ScriptingContext.cpp:36-69). -/
def LoadSync (sem : LuaSem) (root : VEntry) (st : LoadSt) (file : List String)
    (logError : Bool) : LoadSt × Except String LuaValue :=
  match resolve root file with
  | none =>
      let msg := "unknown path " ++ pathStr file
      (if logError then
          { st with log := st.log ++ ["failed to load " ++ pathStr file ++ ": " ++ msg] }
        else st, .error msg)
  | some (.directory _) =>
      let msg := pathStr file ++ " is a directory, expected a file"
      (if logError then
          { st with log := st.log ++ ["failed to load " ++ pathStr file ++ ": " ++ msg] }
        else st, .error msg)
  | some (.physicalDirectory _) =>
      let msg := pathStr file ++ " is a directory, expected a file"
      (if logError then
          { st with log := st.log ++ ["failed to load " ++ pathStr file ++ ": " ++ msg] }
        else st, .error msg)
  | some (.file f) =>
      let r := LoadFileSync sem st (pathStr file) f
      match r.2 with
      | .error e =>
          (if logError then
              { r.1 with log := r.1.log ++ ["failed to load " ++ pathStr file ++ ": " ++ e] }
            else r.1, .error e)
      | .ok v => (r.1, .ok v)

/-- `ScriptingContext::Load(file, Async)` (ScriptingContext.cpp:71-101). -/
def LoadAsync (sem : LuaSem) (root : VEntry) (st : LoadSt) (file : List String) :
    LoadSt × Option FileLoadCoroutine :=
  match resolve root file with
  | none =>
      ({ st with log := st.log ++ ["Unknown path " ++ pathStr file] }, none)
  | some (.directory _) =>
      ({ st with log := st.log ++ [pathStr file ++ " is a directory, expected a file"] }, none)
  | some (.physicalDirectory _) =>
      ({ st with log := st.log ++ [pathStr file ++ " is a directory, expected a file"] }, none)
  | some (.file f) => LoadFileAsync sem st (pathStr file) f

end ScriptingContext

/-- `ScriptingContext::LoadDirectory(path, PhysicalDirectoryEntry)`
(ScriptingContext.cpp:328-340): walk the physical subtree with
`recursive_directory_iterator`, synchronously `LoadFile` every regular
file — passing the file's parent path as the path argument — and discard
each file's load result: unlike the `DirectoryEntry` loop, a load failure
produces no log entry here (only `ReadFile` itself logs open/read
failures). -/
def LoadPhysDirEntries (sem : LuaSem) (st : LoadSt) (path : List String) :
    List (String × PhysEntry) → LoadSt
  | [] => st
  | (_, .file r) :: rest =>
      LoadPhysDirEntries sem (LoadFileSync sem st (pathStr path) (.physicalFile r)).1 path rest
  | (name, .directory es) :: rest =>
      LoadPhysDirEntries sem (LoadPhysDirEntries sem st (path ++ [name]) es) path rest

mutual

/-- One entry of the `Foreach` loop in
`ScriptingContext::LoadDirectory(path, DirectoryEntry)`
(ScriptingContext.cpp:302-326): a file entry is loaded synchronously and a
failure is logged; a directory entry — virtual or physical — is recursed
into through the matching `LoadDirectory` overload (yielding the success
value `sol::nil`, so the recursion contributes no failure log of its own
at this level). -/
def LoadDirEntry (sem : LuaSem) (st : LoadSt) (path : List String) :
    VEntry → LoadSt
  | .file f =>
      let r := LoadFileSync sem st (pathStr path) f
      match r.2 with
      | .error e => { r.1 with log := r.1.log ++ ["failed to load " ++ pathStr path ++ ": " ++ e] }
      | .ok _ => r.1
  | .directory es => LoadDirEntries sem st path es
  | .physicalDirectory es => LoadPhysDirEntries sem st path es

/-- The `Foreach` loop over a directory's entries, in order. -/
def LoadDirEntries (sem : LuaSem) (st : LoadSt) (path : List String) :
    List (String × VEntry) → LoadSt
  | [] => st
  | (name, e) :: rest => LoadDirEntries sem (LoadDirEntry sem st (path ++ [name]) e) path rest

end

/-- `ScriptingContext::LoadDirectory(folder)` (ScriptingContext.cpp:103-128):
an unknown path is logged and yields `false`; a path naming a file is
logged ("is a file, expected a directory") but still yields `true`; a
directory is traversed. -/
def ScriptingContext.LoadDirectory (sem : LuaSem) (root : VEntry) (st : LoadSt)
    (folder : List String) : LoadSt × Bool :=
  match resolve root folder with
  | none =>
      ({ st with log := st.log ++ ["unknown path " ++ pathStr folder] }, false)
  | some (.file _) =>
      ({ st with log := st.log ++ [pathStr folder ++ " is a file, expected a directory"] }, true)
  | some (.directory es) => (LoadDirEntries sem st folder es, true)
  | some (.physicalDirectory es) => (LoadPhysDirEntries sem st folder es, true)

/-- The chunks a synchronous load of one file executes against the root
state: data and in-memory entries always execute their content; physical
files execute their content only when it reads back non-empty. -/
def fileExec : FileEntry → List String
  | .dataPointer c => [c]
  | .fileContent c => [c]
  | .physicalFile none => []
  | .physicalFile (some c) => if c = "" then [] else [c]

/-- The log entries the directory loop produces for one executed chunk:
the outer loop wraps the structured error of `LoadFile` (itself already
prefixed) in a second "failed to load" prefix. -/
def chunkLog (sem : LuaSem) (path c : String) : List String :=
  match sem.runFail c with
  | some e => ["failed to load " ++ path ++ ": " ++ ("failed to load " ++ path ++ ": " ++ e)]
  | none => []

/-- The log entries produced when the directory loop loads one file. -/
def fileDirLog (sem : LuaSem) (path : String) : FileEntry → List String
  | .dataPointer c => chunkLog sem path c
  | .fileContent c => chunkLog sem path c
  | .physicalFile none => ["Failed to load " ++ path ++ ": failed to open file"]
  | .physicalFile (some c) => if c = "" then [] else chunkLog sem path c

/-- Log entries `ReadFile` itself produces while loading one file. -/
def fileReadLog (path : String) : FileEntry → List String
  | .physicalFile none => ["Failed to load " ++ path ++ ": failed to open file"]
  | _ => []

/-- Chunks executed when the physical-directory walk processes a list of
entries: every readable, non-empty regular file is executed, recursively,
in traversal order. -/
def physExecEntries : List (String × PhysEntry) → List String
  | [] => []
  | (_, .file r) :: rest => fileExec (.physicalFile r) ++ physExecEntries rest
  | (_, .directory es) :: rest => physExecEntries es ++ physExecEntries rest

/-- Log entries emitted when the physical-directory walk processes a list
of entries: only `ReadFile` open/read failures are logged (against the
file's parent path); a chunk's load failure is discarded silently. -/
def physLogEntries (path : List String) : List (String × PhysEntry) → List String
  | [] => []
  | (_, .file r) :: rest =>
      fileReadLog (pathStr path) (.physicalFile r) ++ physLogEntries path rest
  | (name, .directory es) :: rest =>
      physLogEntries (path ++ [name]) es ++ physLogEntries path rest

mutual

/-- Chunks executed when the directory loop processes an entry. -/
def dirExec : VEntry → List String
  | .file f => fileExec f
  | .directory es => dirExecEntries es
  | .physicalDirectory es => physExecEntries es

/-- Chunks executed when the directory loop processes a list of entries. -/
def dirExecEntries : List (String × VEntry) → List String
  | [] => []
  | (_, e) :: rest => dirExec e ++ dirExecEntries rest

end

mutual

/-- Log entries emitted when the directory loop processes an entry. -/
def dirLog (sem : LuaSem) (path : List String) : VEntry → List String
  | .file f => fileDirLog sem (pathStr path) f
  | .directory es => dirLogEntries sem path es
  | .physicalDirectory es => physLogEntries path es

/-- Log entries emitted when the directory loop processes a list of
entries. -/
def dirLogEntries (sem : LuaSem) (path : List String) : List (String × VEntry) → List String
  | [] => []
  | (name, e) :: rest => dirLog sem (path ++ [name]) e ++ dirLogEntries sem path rest

end

/-- The structured result of synchronously loading one file entry. -/
def chunkResultOf (sem : LuaSem) (path c : String) : Except String LuaValue :=
  match sem.runFail c with
  | some e => .error ("failed to load " ++ path ++ ": " ++ e)
  | none => .ok (.chunkResult path c)

/-- The result of the synchronous `LoadFile` on one file entry. -/
def fileResult (sem : LuaSem) (path : String) : FileEntry → Except String LuaValue
  | .dataPointer c => chunkResultOf sem path c
  | .fileContent c => chunkResultOf sem path c
  | .physicalFile none => .ok .nil
  | .physicalFile (some c) => if c = "" then .ok .nil else chunkResultOf sem path c

theorem LoadFileSync_spec (sem : LuaSem) (st : LoadSt) (path : String) (f : FileEntry) :
    LoadFileSync sem st path f =
      (⟨st.vm ++ fileExec f, st.log ++ fileReadLog path f, st.nextThreadId⟩,
       fileResult sem path f) := by
  cases f with
  | dataPointer c =>
      simp [LoadFileSync, doString, fileExec, fileReadLog, fileResult, chunkResultOf]
  | fileContent c =>
      simp [LoadFileSync, doString, fileExec, fileReadLog, fileResult, chunkResultOf]
  | physicalFile r =>
      cases r with
      | none => simp [LoadFileSync, ReadFile, fileExec, fileReadLog, fileResult]
      | some c =>
          by_cases hc : c = ""
          · simp [LoadFileSync, ReadFile, fileExec, fileReadLog, fileResult, hc]
          · simp [LoadFileSync, ReadFile, doString, fileExec, fileReadLog, fileResult,
              chunkResultOf, hc]

theorem fileDirLog_eq (sem : LuaSem) (path : String) (f : FileEntry) :
    fileDirLog sem path f =
      fileReadLog path f ++
        (match fileResult sem path f with
          | .error e => ["failed to load " ++ path ++ ": " ++ e]
          | .ok _ => []) := by
  cases f with
  | dataPointer c =>
      simp only [fileDirLog, fileReadLog, fileResult, chunkLog, chunkResultOf]
      cases sem.runFail c <;> simp
  | fileContent c =>
      simp only [fileDirLog, fileReadLog, fileResult, chunkLog, chunkResultOf]
      cases sem.runFail c <;> simp
  | physicalFile r =>
      cases r with
      | none => simp [fileDirLog, fileReadLog, fileResult]
      | some c =>
          by_cases hc : c = ""
          · simp [fileDirLog, fileReadLog, fileResult, hc]
          · simp only [fileDirLog, fileReadLog, fileResult, chunkLog, chunkResultOf, hc,
              if_neg hc, if_false]
            cases sem.runFail c <;> simp

theorem LoadPhysDirEntries_spec (sem : LuaSem) :
    ∀ (st : LoadSt) (path : List String) (es : List (String × PhysEntry)),
      LoadPhysDirEntries sem st path es =
        ⟨st.vm ++ physExecEntries es, st.log ++ physLogEntries path es, st.nextThreadId⟩ := by
  refine LoadPhysDirEntries.induct sem
    (fun st path es => LoadPhysDirEntries sem st path es =
      ⟨st.vm ++ physExecEntries es, st.log ++ physLogEntries path es, st.nextThreadId⟩)
    ?_ ?_ ?_
  · intro st path
    simp [LoadPhysDirEntries, physExecEntries, physLogEntries]
  · intro st path fst r rest ih
    simp only [LoadFileSync_spec] at ih
    simp only [LoadPhysDirEntries, physExecEntries, physLogEntries, LoadFileSync_spec, ih]
    simp [List.append_assoc]
  · intro st path name es rest ih1 ih2
    simp only [ih1] at ih2
    simp only [LoadPhysDirEntries, physExecEntries, physLogEntries, ih1, ih2]
    simp [List.append_assoc]

theorem LoadDirEntries_spec (sem : LuaSem) :
    ∀ (st : LoadSt) (path : List String) (es : List (String × VEntry)),
      LoadDirEntries sem st path es =
        ⟨st.vm ++ dirExecEntries es, st.log ++ dirLogEntries sem path es, st.nextThreadId⟩ := by
  refine LoadDirEntries.induct sem
    (fun st path e => LoadDirEntry sem st path e =
      ⟨st.vm ++ dirExec e, st.log ++ dirLog sem path e, st.nextThreadId⟩)
    (fun st path es => LoadDirEntries sem st path es =
      ⟨st.vm ++ dirExecEntries es, st.log ++ dirLogEntries sem path es, st.nextThreadId⟩)
    ?_ ?_ ?_ ?_ ?_ ?_
  · intro st path f r e herr
    simp only [LoadDirEntry, LoadFileSync_spec, fileDirLog_eq, dirExec, dirLog]
    cases hres : fileResult sem (pathStr path) f <;> simp [hres, List.append_assoc]
  · intro st path f r v hok
    simp only [LoadDirEntry, LoadFileSync_spec, fileDirLog_eq, dirExec, dirLog]
    cases hres : fileResult sem (pathStr path) f <;> simp [hres, List.append_assoc]
  · intro st path es ih
    simpa [LoadDirEntry, dirExec, dirLog] using ih
  · intro st path es
    simp [LoadDirEntry, dirExec, dirLog, LoadPhysDirEntries_spec]
  · intro st path
    simp [LoadDirEntries, dirExecEntries, dirLogEntries]
  · intro st path name e rest ih1 ih2
    simp only [LoadDirEntries, dirExecEntries, dirLogEntries, ih1] at ih2 ⊢
    simp [ih2, ih1, List.append_assoc]

theorem dirExecEntries_append (as bs : List (String × VEntry)) :
    dirExecEntries (as ++ bs) = dirExecEntries as ++ dirExecEntries bs := by
  induction as with
  | nil => simp [dirExecEntries]
  | cons h t ih =>
      obtain ⟨n, e⟩ := h
      simp [dirExecEntries, ih, List.append_assoc]

theorem dirLogEntries_append (sem : LuaSem) (path : List String)
    (as bs : List (String × VEntry)) :
    dirLogEntries sem path (as ++ bs) =
      dirLogEntries sem path as ++ dirLogEntries sem path bs := by
  induction as with
  | nil => simp [dirLogEntries]
  | cons h t ih =>
      obtain ⟨n, e⟩ := h
      simp [dirLogEntries, ih, List.append_assoc]

theorem physExecEntries_append (as bs : List (String × PhysEntry)) :
    physExecEntries (as ++ bs) = physExecEntries as ++ physExecEntries bs := by
  induction as with
  | nil => simp [physExecEntries]
  | cons h t ih =>
      obtain ⟨n, e⟩ := h
      cases e <;> simp [physExecEntries, ih, List.append_assoc]

theorem physLogEntries_append (path : List String) (as bs : List (String × PhysEntry)) :
    physLogEntries path (as ++ bs) = physLogEntries path as ++ physLogEntries path bs := by
  induction as generalizing path with
  | nil => simp [physLogEntries]
  | cons h t ih =>
      obtain ⟨n, e⟩ := h
      cases e <;> simp [physLogEntries, ih, List.append_assoc]

/-- C7 (amended): `LoadDirectory` returns `false` exactly when the folder
path is unknown (a path naming a file logs an error but still returns
`true`); when the path resolves to a virtual directory, the chunks
executed against the root state are those of every file found under the
folder, subdirectories included, in traversal order, and the log gains
exactly the per-file error entries; when the path resolves to a physical
directory, every regular file under it is likewise loaded in traversal
order, but each file's load result is discarded without a per-file error
log — only `ReadFile` open/read failures are logged. In both branches the
traces distribute over list append, so a failing file never prevents the
loading of the entries after it. -/
theorem loadDirectory_loads_every_file (sem : LuaSem) (root : VEntry) (st : LoadSt)
    (folder : List String) :
    ((ScriptingContext.LoadDirectory sem root st folder).2 = false ↔
      resolve root folder = none) ∧
    (∀ es, resolve root folder = some (.directory es) →
      (ScriptingContext.LoadDirectory sem root st folder).1.vm = st.vm ++ dirExecEntries es ∧
      (ScriptingContext.LoadDirectory sem root st folder).1.log =
        st.log ++ dirLogEntries sem folder es) ∧
    (∀ es, resolve root folder = some (.physicalDirectory es) →
      (ScriptingContext.LoadDirectory sem root st folder).1.vm = st.vm ++ physExecEntries es ∧
      (ScriptingContext.LoadDirectory sem root st folder).1.log =
        st.log ++ physLogEntries folder es) ∧
    (∀ as bs, dirExecEntries (as ++ bs) = dirExecEntries as ++ dirExecEntries bs) ∧
    (∀ path as bs, dirLogEntries sem path (as ++ bs) =
      dirLogEntries sem path as ++ dirLogEntries sem path bs) ∧
    (∀ as bs, physExecEntries (as ++ bs) = physExecEntries as ++ physExecEntries bs) ∧
    (∀ path as bs, physLogEntries path (as ++ bs) =
      physLogEntries path as ++ physLogEntries path bs) := by
  refine ⟨?_, ?_, ?_, dirExecEntries_append, fun path => dirLogEntries_append sem path,
    physExecEntries_append, physLogEntries_append⟩
  · cases hres : resolve root folder with
    | none => simp [ScriptingContext.LoadDirectory, hres]
    | some e =>
        cases e with
        | file f => simp [ScriptingContext.LoadDirectory, hres]
        | directory es => simp [ScriptingContext.LoadDirectory, hres]
        | physicalDirectory es => simp [ScriptingContext.LoadDirectory, hres]
  · intro es hres
    simp [ScriptingContext.LoadDirectory, hres, LoadDirEntries_spec]
  · intro es hres
    simp [ScriptingContext.LoadDirectory, hres, LoadPhysDirEntries_spec]

/-- The concrete input refuting C7 as stated: the script root mounts a
physical directory `"scripts"` holding one readable file whose chunk
raises an error when executed. -/
def physCexRoot : VEntry :=
  .directory [("scripts", .physicalDirectory [("f.lua", .file (some "boom"))])]

/-- A Lua behaviour under which every chunk parses and every chunk errors
when executed. -/
def physCexSem : LuaSem := ⟨fun _ => true, fun _ => some "script error"⟩

/-- An initial load state for the C7 counterexample. -/
def physCexSt : LoadSt := ⟨[], [], 0⟩

/-- C7 (counterexample): loading the folder `"scripts"` — a
`PhysicalDirectoryEntry` — synchronously loads its one file (the chunk
`"boom"` is executed against the root state) and that load fails
(`runFail` yields an error), yet the final log is empty and the call
returns `true`: the `PhysicalDirectoryEntry` overload of `LoadDirectory`
(ScriptingContext.cpp:328-340) discards each file's load result without
logging, so the claim's "when loading one file fails, the error is
logged for that file" is false at this input. -/
theorem loadDirectory_physical_error_unlogged :
    physCexSem.runFail "boom" = some "script error" ∧
    (ScriptingContext.LoadDirectory physCexSem physCexRoot physCexSt ["scripts"]).1.vm =
      ["boom"] ∧
    (ScriptingContext.LoadDirectory physCexSem physCexRoot physCexSt ["scripts"]).1.log =
      [] ∧
    (ScriptingContext.LoadDirectory physCexSem physCexRoot physCexSt ["scripts"]).2 = true := by
  have hres : resolve physCexRoot ["scripts"] =
      some (.physicalDirectory [("f.lua", PhysEntry.file (some "boom"))]) := rfl
  refine ⟨rfl, ?_, ?_, ?_⟩ <;>
    simp [ScriptingContext.LoadDirectory, hres, LoadPhysDirEntries_spec,
      physExecEntries, physLogEntries, fileExec, fileReadLog, physCexSt]

/-- Whether the asynchronous load of one file entry yields no coroutine:
the content fails to parse, or the entry is a physical file whose content
reads back empty (unreadable, read failure, or a genuinely empty file). -/
def fileAsyncFails (sem : LuaSem) : FileEntry → Bool
  | .dataPointer c => !sem.parses c
  | .fileContent c => !sem.parses c
  | .physicalFile none => true
  | .physicalFile (some c) => c == "" || !sem.parses c

/-- Whether `Load(file, Async)` yields no coroutine, as a function of what
the path resolves to. -/
def asyncFails (sem : LuaSem) : Option VEntry → Bool
  | none => true
  | some (.directory _) => true
  | some (.physicalDirectory _) => true
  | some (.file f) => fileAsyncFails sem f

/-- The content a file entry offers for compilation. -/
def effContent : FileEntry → String
  | .dataPointer c => c
  | .fileContent c => c
  | .physicalFile none => ""
  | .physicalFile (some c) => c

theorem LoadFileAsync_spec (sem : LuaSem) (st : LoadSt) (path : String) (f : FileEntry) :
    (LoadFileAsync sem st path f).1.vm = st.vm ∧
    ((LoadFileAsync sem st path f).2 = none ↔ fileAsyncFails sem f = true) ∧
    (∀ co, (LoadFileAsync sem st path f).2 = some co →
      co = ⟨st.nextThreadId, effContent f, path⟩ ∧
      (LoadFileAsync sem st path f).1.nextThreadId = st.nextThreadId + 1) := by
  cases f with
  | dataPointer c =>
      cases hp : sem.parses c <;>
        simp [LoadFileAsync, compileChunk, fileAsyncFails, effContent, hp]
  | fileContent c =>
      cases hp : sem.parses c <;>
        simp [LoadFileAsync, compileChunk, fileAsyncFails, effContent, hp]
  | physicalFile r =>
      cases r with
      | none => simp [LoadFileAsync, ReadFile, fileAsyncFails]
      | some c =>
          by_cases hc : c = ""
          · simp [LoadFileAsync, ReadFile, fileAsyncFails, hc]
          · cases hp : sem.parses c <;>
              simp [LoadFileAsync, ReadFile, compileChunk, fileAsyncFails, effContent, hc, hp]

/-- C3 (amended): `Load(file, Async)` never executes any of the script's
body — the trace of chunks executed against the root state is unchanged;
it returns an empty optional exactly when the path is unknown, names a
directory, the content fails to parse, or the file is a physical file
whose content reads back empty (unreadable or genuinely empty); otherwise
it returns the file's content compiled into a deferred callable bound to
a freshly created cooperative thread. -/
theorem loadAsync_compiles_without_executing (sem : LuaSem) (root : VEntry)
    (st : LoadSt) (file : List String) :
    (ScriptingContext.LoadAsync sem root st file).1.vm = st.vm ∧
    ((ScriptingContext.LoadAsync sem root st file).2 = none ↔
      asyncFails sem (resolve root file) = true) ∧
    (∀ co, (ScriptingContext.LoadAsync sem root st file).2 = some co →
      ∃ f, resolve root file = some (.file f) ∧
        co = ⟨st.nextThreadId, effContent f, pathStr file⟩ ∧
        (ScriptingContext.LoadAsync sem root st file).1.nextThreadId =
          st.nextThreadId + 1) := by
  cases hres : resolve root file with
  | none =>
      simp [ScriptingContext.LoadAsync, hres, asyncFails]
  | some e =>
      cases e with
      | directory es => simp [ScriptingContext.LoadAsync, hres, asyncFails]
      | physicalDirectory es => simp [ScriptingContext.LoadAsync, hres, asyncFails]
      | file f =>
          obtain ⟨hvm, hnone, hsome⟩ := LoadFileAsync_spec sem st (pathStr file) f
          refine ⟨?_, ?_, ?_⟩
          · simpa [ScriptingContext.LoadAsync, hres] using hvm
          · simpa [ScriptingContext.LoadAsync, hres, asyncFails] using hnone
          · intro co hco
            rw [ScriptingContext.LoadAsync, hres] at hco
            obtain ⟨hco1, hco2⟩ := hsome co hco
            exact ⟨f, rfl, hco1, by simpa [ScriptingContext.LoadAsync, hres] using hco2⟩

/-- The concrete input refuting C3 as stated: a script directory holding
one physical file whose content reads back empty. -/
def asyncCexRoot : VEntry := .directory [("a", .file (.physicalFile (some "")))]

/-- A Lua behaviour under which every chunk parses (as the empty chunk
does under the real Lua parser) and none errors. -/
def asyncCexSem : LuaSem := ⟨fun _ => true, fun _ => none⟩

/-- An initial load state. -/
def asyncCexSt : LoadSt := ⟨[], [], 0⟩

/-- C3 (counterexample): the path `"a"` is known and names a (physical)
file whose content parses, yet `Load(file, Async)` returns an empty
optional — `LoadFile(path, PhysicalFileEntry, Async)`
(ScriptingContext.cpp:250-257) short-circuits on empty content — so the
claim's "when the path is unknown, names a directory, or the content
fails to parse, it returns an empty optional" does not cover all the
empty-optional cases, and the compiled-callable case fails here. -/
theorem loadAsync_counterexample :
    resolve asyncCexRoot ["a"] = some (.file (.physicalFile (some ""))) ∧
    asyncCexSem.parses "" = true ∧
    (ScriptingContext.LoadAsync asyncCexSem asyncCexRoot asyncCexSt ["a"]).2 = none :=
  ⟨rfl, rfl, rfl⟩

/-- C10: synchronous `Load` of a physical file whose content is empty, or
that cannot be opened or read, returns the default-constructed success
value (a nil object) and executes nothing against the root state —
unlike the unknown-path case and the execution-error case, which return
structured failures. -/
theorem loadSync_empty_file_is_success (sem : LuaSem) (root : VEntry) (st : LoadSt)
    (file : List String) (logError : Bool) :
    (resolve root file = some (.file (.physicalFile (some ""))) →
      ScriptingContext.LoadSync sem root st file logError = (st, .ok .nil)) ∧
    (resolve root file = some (.file (.physicalFile none)) →
      (ScriptingContext.LoadSync sem root st file logError).2 = .ok .nil ∧
      (ScriptingContext.LoadSync sem root st file logError).1.vm = st.vm) ∧
    (resolve root file = none →
      (ScriptingContext.LoadSync sem root st file logError).2 =
        .error ("unknown path " ++ pathStr file)) ∧
    (∀ c e, resolve root file = some (.file (.dataPointer c)) → sem.runFail c = some e →
      (ScriptingContext.LoadSync sem root st file logError).2 =
        .error ("failed to load " ++ pathStr file ++ ": " ++ e)) := by
  refine ⟨?_, ?_, ?_, ?_⟩
  · intro hres
    simp [ScriptingContext.LoadSync, hres, LoadFileSync, ReadFile]
  · intro hres
    simp [ScriptingContext.LoadSync, hres, LoadFileSync, ReadFile]
  · intro hres
    simp [ScriptingContext.LoadSync, hres]
  · intro c e hres hrun
    simp [ScriptingContext.LoadSync, hres, LoadFileSync, doString, hrun]

/-! ## Entity initialization (SharedEntityStore.cpp)

`SharedEntityStore::InitializeEntity` (SharedEntityStore.cpp:210-238)
invokes the element's `Initialize` callback, if any, against the entity's
bound scripting table; a failure is written to `std::cerr` and the
function returns `false` with the entity untouched.  On the success paths
the entity's `OnInputUpdate` signal, when an `InputComponent` is present,
is connected to a lambda that forwards the current input data into the
scripting handle as an `"OnInputUpdate"` callback invocation. -/

/-- The entity as `InitializeEntity` sees it: whether it carries an
`InputComponent`, and an abstract view of its scripting table that the
initializer is invoked on. -/
structure EntityView where
  hasInputComponent : Bool
  scriptTable : Nat

/-- A scripted entity class: its name and its optional `Initialize`
callback, embedded as a function from the entity view to success or a Lua
error message. -/
structure ScriptedEntity where
  name : String
  initializeFunction : Option (EntityView → Except String Unit)

/-- Whether the simulation entity survives and in which shape. -/
inductive EntityInitState where
  | uninitialized
  | initialized
  | destroyed
deriving DecidableEq

/-- What `InitializeEntity` did: its return value, what it logged, the
entity's fate, and the input-update subscription, as the function from
input data to the callback invocation it would perform (name and
argument) when one was connected. -/
structure InitializeOutcome where
  result : Bool
  log : List String
  entityState : EntityInitState
  onInputUpdate : Option (Nat → String × Nat)

/-- The success tail of `InitializeEntity` (SharedEntityStore.cpp:225-237):
connect the input forwarding when an `InputComponent` is present, then
return `true`. -/
def finishInitialize (entity : EntityView) : InitializeOutcome :=
  { result := true
    log := []
    entityState := .initialized
    onInputUpdate :=
      if entity.hasInputComponent then some (fun input => ("OnInputUpdate", input))
      else none }

/-- `SharedEntityStore::InitializeEntity` (SharedEntityStore.cpp:210-238). -/
def SharedEntityStore.InitializeEntity (entityClass : ScriptedEntity)
    (entity : EntityView) : InitializeOutcome :=
  match entityClass.initializeFunction with
  | some init =>
      match init entity with
      | .error err =>
          { result := false
            log := ["Failed to create entity \"" ++ entityClass.name ++
              "\", Initialize() failed: " ++ err]
            entityState := .uninitialized
            onInputUpdate := none }
      | .ok _ => finishInitialize entity
  | none => finishInitialize entity

/-- C8: when the class has an initializer and invoking it fails,
`InitializeEntity` logs the failure, returns `false`, leaves the entity
un-initialized rather than destroyed, and subscribes no input-update
notification; when initialization succeeds (initializer absent or
returning a valid result) the function returns `true`, and if the entity
has an `InputComponent` the input-update notification is subscribed,
forwarding the input state to the scripting handle as an
`"OnInputUpdate"` callback invocation. -/
theorem initializeEntity_failure_leaves_entity (entityClass : ScriptedEntity)
    (entity : EntityView) :
    (∀ init err, entityClass.initializeFunction = some init → init entity = .error err →
      (SharedEntityStore.InitializeEntity entityClass entity).result = false ∧
      (SharedEntityStore.InitializeEntity entityClass entity).log =
        ["Failed to create entity \"" ++ entityClass.name ++
          "\", Initialize() failed: " ++ err] ∧
      (SharedEntityStore.InitializeEntity entityClass entity).entityState =
        .uninitialized ∧
      (SharedEntityStore.InitializeEntity entityClass entity).onInputUpdate = none) ∧
    ((entityClass.initializeFunction = none ∨
        ∃ init, entityClass.initializeFunction = some init ∧ init entity = .ok ()) →
      (SharedEntityStore.InitializeEntity entityClass entity).result = true ∧
      (SharedEntityStore.InitializeEntity entityClass entity).entityState =
        .initialized ∧
      (entity.hasInputComponent = true →
        (SharedEntityStore.InitializeEntity entityClass entity).onInputUpdate =
          some (fun input => ("OnInputUpdate", input))) ∧
      (entity.hasInputComponent = false →
        (SharedEntityStore.InitializeEntity entityClass entity).onInputUpdate = none)) := by
  constructor
  · intro init err hinit herr
    simp [SharedEntityStore.InitializeEntity, hinit, herr]
  · intro hsucc
    rcases hsucc with hnone | ⟨init, hinit, hok⟩
    · refine ⟨?_, ?_, ?_, ?_⟩ <;>
        first
          | (intro h; simp [SharedEntityStore.InitializeEntity, hnone, finishInitialize, h])
          | simp [SharedEntityStore.InitializeEntity, hnone, finishInitialize]
    · refine ⟨?_, ?_, ?_, ?_⟩ <;>
        first
          | (intro h; simp [SharedEntityStore.InitializeEntity, hinit, hok, finishInitialize, h])
          | simp [SharedEntityStore.InitializeEntity, hinit, hok, finishInitialize]

/-! ## Auth handshake (MatchClientSession.cpp)

`MatchClientSession::HandleIncomingPacket(Packets::Auth)`
(MatchClientSession.cpp:25-47) replies with `AuthSuccess` and then a
`MatchData` packet built from the terrain's map data.  The `MapData` and
`Packets::MatchData` structure definitions are not part of the source
tree; their shapes are modelled from the spec ("background color, tile
size, and per-layer width, height, tile-array"), with the background
color and tile size as opaque values and the packet's per-layer `width`
and `height` truncated to 16 bits as the `static_cast<Nz::UInt16>` in the
handler does. -/

/-- Modelled from the spec: one layer of the map held by the terrain
(`MapData::layers`, whose definition is not among the source files) —
per-layer width, height and tile array. -/
structure MapLayerData where
  width : Nat
  height : Nat
  tiles : List Nat
deriving DecidableEq

/-- Modelled from the spec: the map data held by the terrain (`MapData`,
whose definition is not among the source files) — background color, tile
size, layers. -/
structure MapData where
  backgroundColor : Nat
  tileSize : Nat
  layers : List MapLayerData
deriving DecidableEq

/-- A layer of the `Packets::MatchData` payload: `width` and `height` are
`Nz::UInt16` on the wire. -/
structure PacketLayer where
  width : Nat
  height : Nat
  tiles : List Nat
deriving DecidableEq

/-- The packets the session can send in the auth exchange. -/
inductive Packet where
  | authSuccess
  | matchData (backgroundColor : Nat) (tileSize : Nat) (layers : List PacketLayer)
deriving DecidableEq

/-- `MatchClientSession::HandleIncomingPacket(Packets::Auth)`
(MatchClientSession.cpp:25-47): the packets sent, in order. -/
def MatchClientSession.HandleAuthPacket (map : MapData) : List Packet :=
  [.authSuccess,
   .matchData map.backgroundColor map.tileSize
     (map.layers.map fun l => ⟨l.width % 2 ^ 16, l.height % 2 ^ 16, l.tiles⟩)]

/-- C6: on receiving an `Auth` packet the server sends exactly an
`AuthSuccess` packet followed immediately by a `MatchData` packet whose
payload carries the map's background color, its tile size and, for every
layer in order, that layer's width, height and tile array (for layers
whose dimensions fit the packet's 16-bit width/height fields). -/
theorem auth_reply_sends_match_data (map : MapData)
    (h : ∀ l ∈ map.layers, l.width < 2 ^ 16 ∧ l.height < 2 ^ 16) :
    MatchClientSession.HandleAuthPacket map =
      [.authSuccess,
       .matchData map.backgroundColor map.tileSize
         (map.layers.map fun l => ⟨l.width, l.height, l.tiles⟩)] := by
  have hmap : map.layers.map
        (fun l => (⟨l.width % 2 ^ 16, l.height % 2 ^ 16, l.tiles⟩ : PacketLayer)) =
      map.layers.map fun l => ⟨l.width, l.height, l.tiles⟩ := by
    refine List.map_congr_left ?_
    intro l hl
    obtain ⟨hw, hh⟩ := h l hl
    simp only [Nat.mod_eq_of_lt hw, Nat.mod_eq_of_lt hh]
  unfold MatchClientSession.HandleAuthPacket
  rw [hmap]

/-- C6 (witness): the auth reply for a concrete one-layer map. -/
theorem auth_reply_sends_match_data_witness :
    MatchClientSession.HandleAuthPacket ⟨7, 64, [⟨2, 3, [0, 1, 2, 3, 4, 5]⟩]⟩ =
      [.authSuccess, .matchData 7 64 [⟨2, 3, [0, 1, 2, 3, 4, 5]⟩]] :=
  auth_reply_sends_match_data ⟨7, 64, [⟨2, 3, [0, 1, 2, 3, 4, 5]⟩]⟩ (by decide)

/-! ## Match roster and asset registry (Match.hpp)

`Match::Join`, `Match::Leave` and `Match::RegisterAsset` are declared in
`src/include/CoreLib/Match.hpp` (lines 81-85); the implementation file
`Match.cpp` is not among the source files, so both operations are
modelled from the spec (§4.1 and §4.2, and the testable properties of
§8).  `m_assets` is a hash map keyed by the asset path
(Match.hpp:133), embedded as an association list with unique keys. -/

/-- The roster state of a `Match`: the fixed `m_maxPlayerCount` and the
joined players (`m_players`), by player identity. -/
structure MatchRoster where
  m_maxPlayerCount : Nat
  m_players : List Nat
deriving DecidableEq

namespace Match

/-- Modelled from the spec: the body of `Match::Join` (declared at
Match.hpp:82; `Match.cpp` is not among the source files) — "`Join(player)`
fails (returns false) if the match is at `maxPlayerCount`; otherwise
registers the player" (spec §4.1). -/
def Join (m : MatchRoster) (p : Nat) : MatchRoster × Bool :=
  if m.m_maxPlayerCount ≤ m.m_players.length then (m, false)
  else ({ m with m_players := m.m_players ++ [p] }, true)

/-- Modelled from the spec: the body of `Match::Leave` (declared at
Match.hpp:81; `Match.cpp` is not among the source files) — "`Leave(player)`
removes the player …; it must be safe to call even if the player never
completed join handshake" (spec §4.1). -/
def Leave (m : MatchRoster) (p : Nat) : MatchRoster :=
  { m with m_players := m.m_players.filter fun q => q ≠ p }

end Match

/-- A join or leave request. -/
inductive MatchOp where
  | join (p : Nat)
  | leave (p : Nat)

/-- Apply one roster operation. -/
def applyMatchOp (m : MatchRoster) : MatchOp → MatchRoster
  | .join p => (Match.Join m p).1
  | .leave p => Match.Leave m p

/-- The roster after a sequence of join/leave requests against a match
constructed with the given player cap. -/
def runMatchOps (maxPlayerCount : Nat) (ops : List MatchOp) : MatchRoster :=
  ops.foldl applyMatchOp ⟨maxPlayerCount, []⟩

theorem applyMatchOp_invariant (maxPlayerCount : Nat) (m : MatchRoster) (op : MatchOp)
    (h : m.m_maxPlayerCount = maxPlayerCount ∧ m.m_players.length ≤ maxPlayerCount) :
    (applyMatchOp m op).m_maxPlayerCount = maxPlayerCount ∧
      (applyMatchOp m op).m_players.length ≤ maxPlayerCount := by
  obtain ⟨hmax, hlen⟩ := h
  subst hmax
  cases op with
  | join p =>
      simp only [applyMatchOp, Match.Join]
      by_cases hfull : m.m_maxPlayerCount ≤ m.m_players.length
      · simp [hfull, hlen]
      · simp only [if_neg hfull]
        refine ⟨trivial, ?_⟩
        simp only [List.length_append, List.length_cons, List.length_nil]
        omega
  | leave p =>
      refine ⟨by simp [applyMatchOp, Match.Leave], ?_⟩
      have := List.length_filter_le (fun q => decide (q ≠ p)) m.m_players
      simp only [applyMatchOp, Match.Leave]
      omega

theorem runMatchOps_le (maxPlayerCount : Nat) (ops : List MatchOp) :
    (runMatchOps maxPlayerCount ops).m_maxPlayerCount = maxPlayerCount ∧
      (runMatchOps maxPlayerCount ops).m_players.length ≤ maxPlayerCount := by
  suffices h : ∀ m : MatchRoster,
      m.m_maxPlayerCount = maxPlayerCount ∧ m.m_players.length ≤ maxPlayerCount →
      (ops.foldl applyMatchOp m).m_maxPlayerCount = maxPlayerCount ∧
        (ops.foldl applyMatchOp m).m_players.length ≤ maxPlayerCount by
    exact h ⟨maxPlayerCount, []⟩ ⟨rfl, by simp⟩
  induction ops with
  | nil => intro m hm; simpa using hm
  | cons op ops ih =>
      intro m hm
      exact ih _ (applyMatchOp_invariant maxPlayerCount m op hm)

/-- C4: for every sequence of `Join`/`Leave` requests the number of
joined players never exceeds `maxPlayerCount`; `Join` on a match whose
player count equals `maxPlayerCount` returns `false` and leaves the
roster unchanged; and `Leave` on a player that never joined is a no-op,
not an error. -/
theorem match_join_leave_roster (maxPlayerCount : Nat) (ops : List MatchOp)
    (m : MatchRoster) (p : Nat) :
    (runMatchOps maxPlayerCount ops).m_players.length ≤ maxPlayerCount ∧
    (m.m_players.length = m.m_maxPlayerCount → Match.Join m p = (m, false)) ∧
    (p ∉ m.m_players → Match.Leave m p = m) := by
  refine ⟨(runMatchOps_le maxPlayerCount ops).2, ?_, ?_⟩
  · intro hfull
    simp [Match.Join, hfull]
  · intro hnot
    have hfil : m.m_players.filter (fun q => q ≠ p) = m.m_players := by
      refine List.filter_eq_self.mpr ?_
      intro q hq
      have hqp : q ≠ p := fun hqp => hnot (hqp ▸ hq)
      simp [hqp]
    show ({ m with m_players := m.m_players.filter fun q => q ≠ p } : MatchRoster) = m
    rw [hfil]

/-- An asset catalog entry: size and checksum (`Match::Asset` without the
redundant path copy, Match.hpp:96-101). -/
structure AssetData where
  size : Nat
  checksum : Nat
deriving DecidableEq

/-- Insert-or-assign on an association list: the embedding of storing
into the path-keyed hash map `m_assets` (Match.hpp:133). -/
def updateAssoc : List (String × AssetData) → String → AssetData → List (String × AssetData)
  | [], p, a => [(p, a)]
  | (q, b) :: rest, p, a =>
      if q = p then (p, a) :: rest else (q, b) :: updateAssoc rest p a

/-- Modelled from the spec: the body of `Match::RegisterAsset` (declared
at Match.hpp:84-85; `Match.cpp` is not among the source files) —
"`RegisterAsset(path, size, checksum)` … inserts/updates the catalog
entry" (spec §4.2), keyed by path in `m_assets`. -/
def Match.RegisterAsset (assets : List (String × AssetData)) (path : String)
    (a : AssetData) : List (String × AssetData) :=
  updateAssoc assets path a

/-- Modelled from the spec: `Match::BuildClientAssetListPacket`
(Match.hpp:52) enumerates the registry ("The registries expose an
enumeration primitive used to build a client asset/script list",
spec §4.2). -/
def Match.BuildClientAssetList (assets : List (String × AssetData)) :
    List (String × AssetData) :=
  assets

theorem updateAssoc_keys (l : List (String × AssetData)) (p : String) (a : AssetData) :
    (updateAssoc l p a).map Prod.fst =
      if p ∈ l.map Prod.fst then l.map Prod.fst else l.map Prod.fst ++ [p] := by
  induction l with
  | nil => simp [updateAssoc]
  | cons h t ih =>
      obtain ⟨q, b⟩ := h
      by_cases hq : q = p
      · simp [updateAssoc, hq]
      · simp only [updateAssoc, if_neg hq, List.map_cons, ih]
        by_cases hmem : p ∈ t.map Prod.fst
        · simp [hmem, Ne.symm hq]
        · simp [hmem, Ne.symm hq]

theorem updateAssoc_nodup (l : List (String × AssetData)) (p : String) (a : AssetData)
    (h : (l.map Prod.fst).Nodup) : ((updateAssoc l p a).map Prod.fst).Nodup := by
  rw [updateAssoc_keys]
  by_cases hmem : p ∈ l.map Prod.fst
  · simpa [hmem] using h
  · simp only [hmem, if_false]
    exact List.Nodup.append h (List.nodup_singleton p) (by simpa using hmem)

theorem updateAssoc_filter_of_not_mem (l : List (String × AssetData)) (p : String)
    (h : p ∉ l.map Prod.fst) : l.filter (fun e => e.1 == p) = [] := by
  induction l with
  | nil => simp
  | cons hd t ih =>
      obtain ⟨q, b⟩ := hd
      simp only [List.map_cons, List.mem_cons] at h
      push_neg at h
      simp only [List.filter_cons]
      have : ((q, b).1 == p) = false :=
        beq_eq_false_iff_ne.mpr fun hqp => h.1 hqp.symm
      rw [this]
      exact ih h.2

theorem updateAssoc_filter (l : List (String × AssetData)) (p : String) (a : AssetData)
    (h : (l.map Prod.fst).Nodup) :
    (updateAssoc l p a).filter (fun e => e.1 == p) = [(p, a)] := by
  induction l with
  | nil => simp [updateAssoc]
  | cons hd t ih =>
      obtain ⟨q, b⟩ := hd
      simp only [List.map_cons, List.nodup_cons] at h
      by_cases hq : q = p
      · subst hq
        simp only [updateAssoc, if_pos rfl, List.filter_cons]
        have hrest := updateAssoc_filter_of_not_mem t q h.1
        simp [hrest]
      · simp only [updateAssoc, if_neg hq, List.filter_cons]
        have : ((q, b).1 == p) = false := by simpa using hq
        rw [this]
        exact ih h.2

/-- C5: asset registration is last-write-wins — after registering the
same path with data `a1` and then `a2` (into any registry with one entry
per path), the registry holds exactly one entry for that path, carrying
`a2`; the client asset list built afterwards pairs that path with `a2`
and with nothing else; and the one-entry-per-path shape is preserved. -/
theorem registerAsset_last_write_wins (assets : List (String × AssetData))
    (path : String) (a1 a2 : AssetData) (h : (assets.map Prod.fst).Nodup) :
    ((Match.RegisterAsset (Match.RegisterAsset assets path a1) path a2).filter
        (fun e => e.1 == path) = [(path, a2)]) ∧
    (∀ x, (path, x) ∈
        Match.BuildClientAssetList
          (Match.RegisterAsset (Match.RegisterAsset assets path a1) path a2) ↔
      x = a2) ∧
    (((Match.RegisterAsset (Match.RegisterAsset assets path a1) path a2).map
        Prod.fst).Nodup) := by
  have h1 : ((Match.RegisterAsset assets path a1).map Prod.fst).Nodup :=
    updateAssoc_nodup assets path a1 h
  have hfil : (Match.RegisterAsset (Match.RegisterAsset assets path a1) path a2).filter
      (fun e => e.1 == path) = [(path, a2)] :=
    updateAssoc_filter _ path a2 h1
  refine ⟨hfil, ?_, updateAssoc_nodup _ path a2 h1⟩
  intro x
  constructor
  · intro hmem
    have : (path, x) ∈ (Match.RegisterAsset (Match.RegisterAsset assets path a1)
        path a2).filter (fun e => e.1 == path) := by
      refine List.mem_filter.mpr ⟨hmem, by simp⟩
    rw [hfil] at this
    simpa using List.mem_singleton.mp this
  · intro hx
    subst hx
    have : (path, x) ∈ [(path, x)] := by simp
    have h2 := hfil ▸ this
    exact (List.mem_filter.mp h2).1

/-- C5 (witness): registering `"tex/a.png"` with checksum 10 and then 20
leaves one entry carrying checksum 20. -/
theorem registerAsset_last_write_wins_witness :
    (Match.RegisterAsset (Match.RegisterAsset [] "tex/a.png" ⟨5, 10⟩)
        "tex/a.png" ⟨5, 20⟩).filter (fun e => e.1 == "tex/a.png") =
      [("tex/a.png", ⟨5, 20⟩)] :=
  (registerAsset_last_write_wins [] "tex/a.png" ⟨5, 10⟩ ⟨5, 20⟩ (by simp)).1

end BurgWar
